import Mathlib

/-!
Verification development for the SIMURAN batch-analysis orchestrator.

This file shallowly embeds the core of the repository in Lean 4:
the lazy `RecordingContainer` (`simuran/recording_container.py`),
the batch driver `batch_main` / `batch_run` (`simuran/main/batch_main.py`),
the per-run orchestrator `main` (`main/main.py`), and a model of the
configuration round-trip exercised by `tests/test_recording.py`.

External collaborators (the filesystem, the missing `Recording`,
`ParamHandler`, `AnalysisHandler` and `run` implementations, and the
caller-supplied analysis functions) are passed in as explicit oracle
parameters, so every definition is executable.
-/

namespace Simuran

/-- A recording handle as the container sees it: `source_file` identifies it,
`valid` is the construction-time validity flag, `loaded` / `loadCount`
instrument the load lifecycle, and `results` holds accumulated analysis
output.  (The `Recording` class itself is outside `src/`; these fields model
what `recording_container.py` and `main.py` read and write on it.) -/
structure Recording where
  sourceFile : String := ""
  valid : Bool := true
  loaded : Bool := false
  loadCount : Nat := 0
  results : List (String × String) := []
  deriving Repr, DecidableEq

/-- `Recording.load()`: marks the recording loaded; `loadCount` counts how
many times the loader was invoked on this value. -/
def Recording.load (r : Recording) : Recording :=
  { r with loaded := true, loadCount := r.loadCount + 1 }

/-- `copy.deepcopy` on a recording: in this pure embedding a deep copy is the
value itself — the point of keeping it explicit is that `get` computes its
hot slot from a copy of the stored element, never from the element in place. -/
def deepcopy (r : Recording) : Recording := r

/-- State of `RecordingContainer.__init__`: the lazy flag, the single hot
cache slot (`last_loaded`, `last_loaded_idx`), the authoritative element
sequence (`data`, from `AbstractContainer`), and `base_dir`. -/
structure RecordingContainer where
  loadOnFly : Bool := true
  lastLoaded : Recording := {}
  lastLoadedIdx : Option Nat := none
  baseDir : Option String := none
  data : List Recording := []
  deriving Repr, DecidableEq

/-- `RecordingContainer.get(idx)` from `recording_container.py`: in lazy mode
a request for a new index deep-copies the stored element, loads the copy and
caches it as hot; a repeated index returns the cached hot copy unchanged.
Returns `none` when `idx` is out of range (Python would raise `IndexError`). -/
def RecordingContainer.get (c : RecordingContainer) (idx : Nat) :
    Option (Recording × RecordingContainer) :=
  if c.loadOnFly then
    if c.lastLoadedIdx ≠ some idx then
      match c.data[idx]? with
      | none => none
      | some r =>
        let hot := (deepcopy r).load
        some (hot, { c with lastLoaded := hot, lastLoadedIdx := some idx })
  else some (c.lastLoaded, c)
  else
    match c.data[idx]? with
    | none => none
    | some r => some (r, c)

/-- The container state after a `get` call (unchanged when the call raises). -/
def RecordingContainer.getState (c : RecordingContainer) (idx : Nat) :
    RecordingContainer :=
  match c.get idx with
  | none => c
  | some (_, c2) => c2

/-- The container state after a whole sequence of `get` calls. -/
def RecordingContainer.getSeq (c : RecordingContainer) (idxs : List Nat) :
    RecordingContainer :=
  idxs.foldl RecordingContainer.getState c

/-- `os.path.basename` for the `/`-separated absolute paths the scan
produces: the component after the last separator. -/
def pathBasename (s : String) : String :=
  String.mk ((s.toList.reverse.takeWhile (fun c => c ≠ '/')).reverse)

/-- Modelled from the spec: constructing `Recording(param_file=f, load=l)`
(the `Recording` class is not under `src/`).  Per §3 of the spec a Recording
is identified by its `source_file` (the path of its configuration script),
carries a validity flag resolved at construction from its configuration
(abstracted here by the oracle `validOf`), and is loaded eagerly only when
requested. -/
def mkRecording (validOf : String → Bool) (paramFile : String)
    (shouldLoad : Bool) : Recording :=
  { sourceFile := paramFile
    valid := validOf paramFile
    loaded := shouldLoad
    loadCount := if shouldLoad then 1 else 0 }

/-- The `for param_file in param_files` loop of `RecordingContainer.setup`:
construct each recording, skip the invalid ones (with a printed diagnostic),
append the rest in order. -/
def setupLoop (validOf : String → Bool) (shouldLoad : Bool) :
    List String → List Recording
  | [] => []
  | f :: rest =>
    let recording := mkRecording validOf f shouldLoad
    if recording.valid then recording :: setupLoop validOf shouldLoad rest
    else setupLoop validOf shouldLoad rest

/-- `RecordingContainer.setup(filenames, start_dir, param_name)`: keep the
filenames whose basename equals `param_name`, append one valid recording per
match, and record `base_dir = start_dir`. -/
def RecordingContainer.setup (c : RecordingContainer)
    (validOf : String → Bool) (filenames : List String) (startDir : String)
    (paramName : String) : RecordingContainer :=
  let paramFiles := filenames.filter (fun f => pathBasename f = paramName)
  let shouldLoad := !c.loadOnFly
  { c with
    data := c.data ++ setupLoop validOf shouldLoad paramFiles
    baseDir := some startDir }

/-- `RecordingContainer.auto_setup(start_dir, param_name, recursive)`: the
directory scan (`get_all_files_in_dir`, an external collaborator) is passed
in as the list `scanned` of discovered `.py` paths; the rest is `setup`. -/
def RecordingContainer.autoSetup (c : RecordingContainer)
    (validOf : String → Bool) (scanned : List String) (startDir : String)
    (paramName : String) : RecordingContainer :=
  c.setup validOf scanned startDir paramName

/-- A Python value as it appears in the run-configuration dictionaries handed
to `batch_main`: the keyword arguments are strings (paths), booleans
(`only_check`, flags) or integers. -/
inductive PVal where
  | s (v : String)
  | b (v : Bool)
  | i (v : Int)
  deriving Repr, DecidableEq

/-- A Python dict with these values, as an association list in insertion
order (Python dicts are ordered and have unique keys). -/
abbrev Dict := List (String × PVal)

/-- Python truthiness of a `PVal`, as used by `kwargs.get("only_check", False)`. -/
def truthy : PVal → Bool
  | .s v => v ≠ ""
  | .b v => v
  | .i v => v ≠ 0

/-- `kwargs.get(key, False)` read as a boolean condition. -/
def kwGetBool (d : Dict) (k : String) : Bool :=
  match List.lookup k d with
  | none => false
  | some v => truthy v

/-- `dict.pop(key)`: removes the (unique) binding of `key` and returns its
value together with the shrunk dict; `none` models the `KeyError` raised when
the key is absent. -/
def dpop : Dict → String → Option (PVal × Dict)
  | [], _ => none
  | (k1, v) :: rest, k =>
    if k1 = k then some (v, rest)
    else
      match dpop rest k with
      | none => none
      | some (v2, rest2) => some (v2, (k1, v) :: rest2)

/-- `{**d1, **d2}`: entries of `d1` in order with values overridden by `d2`,
followed by the keys only `d2` has. -/
def dictMerge (d1 d2 : Dict) : Dict :=
  (d1.map fun p =>
    match List.lookup p.1 d2 with
    | some v => (p.1, v)
    | none => p) ++
  d2.filter fun p => (List.lookup p.1 d1).isNone

/-- `os.path.abspath`: path normalization lives in the operating system;
the embedding treats the configuration paths as already absolute, so this is
the identity on the path string. -/
def abspath (s : String) : String := s

/-- Outcome of one `simuran.main.main.run` call.  `run` is imported by
`batch_main` but its module is not under `src/`; the embedding takes it as an
oracle producing either `(results, recording_container)` — the container
abstracted by its `source_file` list, which is what `batch_main` reads off it
— or a raised exception. -/
inductive RunResult where
  | ok (results : String) (containerFiles : List String)
  | exn (msg : String)
  deriving Repr, DecidableEq

/-- What `batch_main` returns: a single `run` output when an index was
selected, or the accumulated `all_info` list. -/
inductive BatchInfo where
  | single (results : String) (files : List String)
  | aggregate (entries : List (String × List String))
  deriving Repr, DecidableEq

/-- Full observable outcome of a `batch_main` call: the returned value or the
propagated exception, the final state of the caller's `run_dict_list` (whose
dicts `get_dict_entry` mutates in place), and the trace of `run` invocations
(each recorded as its `(batch_param_loc, fn_param_loc)` pair). -/
structure BatchMainOut where
  ret : Except String BatchInfo
  finalList : List Dict
  runCalls : List (String × String)
  deriving Repr

/-- `get_dict_entry(index)` from `batch_main`: pops `batch_param_loc` and
`fn_param_loc` out of `run_dict_list[index]` (mutating that dict in place —
the returned list reflects the mutation, including the partial one left
behind when the second pop raises), substitutes `function_to_use` when given,
and makes the two paths absolute.  Errors model `IndexError` / `KeyError` /
`TypeError` (a non-string path given to `os.path.abspath`). -/
def getDictEntry (functionToUse : Option String) (lst : List Dict)
    (i : Nat) : Except String (String × String × Dict) × List Dict :=
  match lst[i]? with
  | none => (.error "IndexError", lst)
  | some d =>
    match dpop d "batch_param_loc" with
    | none => (.error "KeyError", lst)
    | some (bplv, d1) =>
      match dpop d1 "fn_param_loc" with
      | none => (.error "KeyError", lst.set i d1)
      | some (fplv, d2) =>
        match bplv with
        | .s bpl =>
          match functionToUse with
          | some f => (.ok (abspath bpl, abspath f, d2), lst.set i d2)
          | none =>
            match fplv with
            | .s fpl => (.ok (abspath bpl, abspath fpl, d2), lst.set i d2)
            | _ => (.error "TypeError", lst.set i d2)
        | _ => (.error "TypeError", lst.set i d2)

/-- The `for i in range(len(run_dict_list))` loop of `batch_main`, with
Python's local-variable semantics made explicit: `bound` carries the values
of the locals `results` / `recording_container` left over from the last
successful `run` (starting unbound).  On a raising iteration under
`handle_errors` the exception is only logged, and the `save_info` block —
which sits outside the `try` — still appends whatever those locals hold:
the previous iteration's entry, or a `NameError` when nothing was ever
bound.  Recursion is on the remaining iteration count `rem`; `i` is the
current index. -/
def batchMainLoop (runFn : String → String → Dict → RunResult)
    (functionToUse : Option String) (handleErrors saveInfo : Bool)
    (kwargs : Dict) :
    Nat → Nat → List Dict → Option (String × List String) →
    List (String × List String) → List (String × String) → BatchMainOut
  | _, 0, lst, _, acc, calls => ⟨.ok (.aggregate acc), lst, calls⟩
  | i, rem + 1, lst, bound, acc, calls =>
    match getDictEntry functionToUse lst i with
    | (.error e, lst2) => ⟨.error e, lst2, calls⟩
    | (.ok (bpl, fpl, rd), lst2) =>
      let fullKwargs := dictMerge rd kwargs
      let calls2 := calls ++ [(bpl, fpl)]
      let step := fun (bound2 : Option (String × List String)) =>
        if saveInfo then
          match bound2 with
          | none => (⟨.error "NameError", lst2, calls2⟩ : BatchMainOut)
          | some entry =>
            batchMainLoop runFn functionToUse handleErrors saveInfo kwargs
              (i + 1) rem lst2 bound2 (acc ++ [entry]) calls2
        else
          batchMainLoop runFn functionToUse handleErrors saveInfo kwargs
            (i + 1) rem lst2 bound2 acc calls2
      match runFn bpl fpl fullKwargs with
      | .exn m => if handleErrors then step bound else ⟨.error m, lst2, calls2⟩
      | .ok results files => step (some (results, files))

/-- `batch_main(run_dict_list, function_to_use, idx, handle_errors,
save_info, keep_container, **kwargs)` from `simuran/main/batch_main.py`.
With a selected `idx` it runs that single entry (no error handling, no
`save_info` accumulation) and returns `run`'s output directly; otherwise it
iterates the whole list.  (`keep_container` only selects whether an entry
stores the container object or its filename list; the embedding represents
the container by that list either way, so the flag does not change the
model's entries.) -/
def batch_main (runFn : String → String → Dict → RunResult)
    (runDictList : List Dict) (functionToUse : Option String)
    (idx : Option Nat) (handleErrors saveInfo : Bool) (kwargs : Dict) :
    BatchMainOut :=
  match idx with
  | some i =>
    match getDictEntry functionToUse runDictList i with
    | (.error e, lst2) => ⟨.error e, lst2, []⟩
    | (.ok (bpl, fpl, rd), lst2) =>
      match runFn bpl fpl (dictMerge rd kwargs) with
      | .exn m => ⟨.error m, lst2, [(bpl, fpl)]⟩
      | .ok results files => ⟨.ok (.single results files), lst2, [(bpl, fpl)]⟩
  | none =>
    batchMainLoop runFn functionToUse handleErrors saveInfo kwargs
      0 runDictList.length runDictList none [] []

/-- `os.path.dirname`: everything before the last `/` separator (empty when
there is none, as for a bare filename). -/
def pathDirname (s : String) : String :=
  match s.toList.reverse.dropWhile (fun c => c ≠ '/') with
  | [] => ""
  | _ :: rest => String.mk rest.reverse

/-- `os.path.splitext(...)[0]`: the name with its last extension removed. -/
def splitextFst (s : String) : String :=
  match s.toList.reverse.dropWhile (fun c => c ≠ '.') with
  | [] => s
  | _ :: rest => String.mk rest.reverse

/-- The `after_batch_fn` value found in the run-configuration parameters:
either the literal string `"save"` selecting the default save behaviour, or
a caller-supplied callable (abstracted by its name; its execution is
recorded as a trace event). -/
inductive AfterBatchFn where
  | save
  | fn (name : String)
  deriving Repr, DecidableEq

/-- The parameters `batch_run` reads from `ParamHandler(in_loc=run_dict_loc)`.
`ParamHandler` is not under `src/`; the parsed content of the run-description
file is therefore an oracle input: the optional `after_batch_fn`, the
`keep_all_data` flag and the `run_list` that is handed to `batch_main`. -/
structure RunParams where
  afterBatchFn : Option AfterBatchFn := none
  keepAllData : Bool := false
  runList : List Dict := []

/-- Observable side effects of one `batch_run` call. -/
inductive BatchEvent where
  | loadedCache (path : String)
  | ranBatchMain
  | runCall (batchParamLoc fnParamLoc : String)
  | wroteCache (path : String)
  | merged
  | afterBatchCall (name : String) (info : BatchInfo) (outDir : String)
  deriving Repr, DecidableEq

/-- Result and event trace of a `batch_run` call. -/
structure BatchRunOut where
  ret : Except String BatchInfo
  events : List BatchEvent
  deriving Repr

/-- The `sim_results` output directory computed by `batch_run`:
`abspath(join(dirname(run_dict_loc), "..", "sim_results"))` (normalization of
the `..` step is the operating system's; the embedding keeps the joined
form). -/
def outDirOf (runDictLoc : String) : String :=
  pathDirname runDictLoc ++ "/../sim_results"

/-- The cache key computed by `batch_run`:
`<out_dir>/<run-config-basename-sans-ext>[--<function basename>]_dump.pickle`. -/
def pickleNameOf (runDictLoc : String) (functionToUse : Option String) :
    String :=
  let fnName :=
    match functionToUse with
    | none => ""
    | some f => "--" ++ pathBasename f
  outDirOf runDictLoc ++ "/" ++
    splitextFst (pathBasename runDictLoc) ++ fnName ++ "_dump.pickle"

/-- Whether a `batch_run` event is part of the analysis work itself: a
`batch_main` pass over the run configurations, or an individual `run`
invocation inside it. -/
def BatchEvent.isRunWork : BatchEvent → Bool
  | .ranBatchMain => true
  | .runCall _ _ => true
  | _ => false

/-- Whether an event is an invocation of the post-batch callback. -/
def BatchEvent.isAfterBatch : BatchEvent → Bool
  | .afterBatchCall _ _ _ => true
  | _ => false

/-- The non-cached path of `batch_run`: run `batch_main`, propagate its
exception, otherwise pickle the aggregate and run the merges unless the pass
was check-only or index-selected. -/
def batchRunCompute (bm : BatchMainOut) (pickleName : String)
    (onlyCheck idxIsNone merge : Bool) :
    Except String BatchInfo × List BatchEvent :=
  let evs := BatchEvent.ranBatchMain ::
    bm.runCalls.map fun p => BatchEvent.runCall p.1 p.2
  match bm.ret with
  | .error e => (.error e, evs)
  | .ok info =>
    (.ok info, evs ++
      (if !onlyCheck && idxIsNone then
        [BatchEvent.wroteCache pickleName] ++
          (if merge then [BatchEvent.merged] else [])
      else []))

/-- The closing step of `batch_run`: a callable `after_batch_fn` (not the
literal `"save"`) receives the aggregate and the output directory unless the
pass was check-only; an exception from the body skips it. -/
def afterBatchStep (abf : Option AfterBatchFn) (onlyCheck : Bool)
    (outDir : String) (res : Except String BatchInfo × List BatchEvent) :
    BatchRunOut :=
  match res with
  | (.error e, evs) => ⟨.error e, evs⟩
  | (.ok info, evs) =>
    ⟨.ok info, evs ++
      (match abf with
      | some (.fn f) =>
        if !onlyCheck then [BatchEvent.afterBatchCall f info outDir] else []
      | _ => [])⟩

/-- `batch_run(run_dict_loc, function_to_use, idx, handle_errors, overwrite,
merge, **kwargs)` from `simuran/main/batch_main.py`.  The filesystem is the
oracle `fsIsFile` (`os.path.isfile`) and `cacheContent` (the unpickled
aggregate stored at a path).  When no index is selected, `only_check` is not
set, the pickle exists and no overwrite was requested, the cached aggregate
is loaded and `batch_main` is never entered; otherwise `batch_main` runs
with `save_info` set exactly when an `after_batch_fn` is configured. -/
def batch_run (runFn : String → String → Dict → RunResult)
    (fsIsFile : String → Bool) (cacheContent : String → BatchInfo)
    (runDictLoc : String) (params : RunParams)
    (functionToUse : Option String) (idx : Option Nat)
    (handleErrors overwrite merge : Bool) (kwargs : Dict) : BatchRunOut :=
  let afterBatchFn := params.afterBatchFn
  let outDir := outDirOf runDictLoc
  let pickleName := pickleNameOf runDictLoc functionToUse
  let onlyCheck := kwGetBool kwargs "only_check"
  afterBatchStep afterBatchFn onlyCheck outDir
    (if idx.isNone && !onlyCheck && fsIsFile pickleName && !overwrite then
      (Except.ok (cacheContent pickleName),
        [BatchEvent.loadedCache pickleName])
    else
      batchRunCompute
        (batch_main runFn params.runList functionToUse idx handleErrors
          (afterBatchFn.isSome) kwargs)
        pickleName onlyCheck idx.isNone merge)

/-- The mapping an external `args_fn` returns for one recording: analysis
function name to its positional-argument list. -/
abbrev ArgsMap := List (String × List String)

/-- How a call of `main` from `main/main.py` ends: `exited code` models the
`exit(-1)` taken in check-only batch setup (a raised `SystemExit` carrying a
non-zero status), `errored` a propagated Python exception, `completed` the
normal fall-through after the summary is written. -/
inductive MainOutcome where
  | exited (code : Int)
  | errored (msg : String)
  | completed
  deriving Repr, DecidableEq

/-- Observable side effects of one `main` call. -/
inductive MainEvent where
  | clearedParams
  | wroteBatchParams
  | builtContainer
  | ranAnalysis (i : Nat)
  | wroteSummary
  deriving Repr, DecidableEq

/-- Modelled from the spec: `AnalysisHandler.run_all_fns` (the
`analysis_handler` module is not under `src/`).  Per §4.4 every enqueued
binding executes in registration order, each return value captured under the
function's identity key; `main` enqueues one binding per function in
`functions`, passing `function_args.get(fn.__name__, [])`.  The analysis
functions themselves are the oracle `fnEval`. -/
def runAllFns (fnEval : String → Recording → List String → String)
    (functions : List String) (r : Recording) (fa : ArgsMap) :
    List (String × String) :=
  functions.map fun fn => (fn, fnEval fn r ((List.lookup fn fa).getD []))

/-- Stable insertion of a recording after every already-placed element the
comparison accepts — the building block of the stable sort below. -/
def insertSorted (le : Recording → Recording → Bool) (r : Recording) :
    List Recording → List Recording
  | [] => [r]
  | x :: xs => if le x r then x :: insertSorted le r xs else r :: x :: xs

/-- `RecordingContainer.sort(key_fn, reverse)`: Python's stable `list.sort`
keyed by `key_fn`, descending when `reverse` is set. -/
def RecordingContainer.sortBy (c : RecordingContainer)
    (keyFn : Recording → Int) (reverse : Bool) : RecordingContainer :=
  let le := fun a b =>
    if reverse then decide (keyFn a ≥ keyFn b) else decide (keyFn a ≤ keyFn b)
  { c with data := c.data.foldl (fun acc r => insertSorted le r acc) [] }

/-- The `for i in pbar` loop of `main`, with Python's local-variable
semantics for `function_args` made explicit: the local persists across
iterations (`fargs0`) and is only (re)assigned when `args_fn` is not `None`,
yet `pbar.set_description` interpolates it unconditionally — referencing it
while still unbound raises the `UnboundLocalError` modelled here, before the
iteration loads anything or runs any analysis.  With `load_all` the
recording comes from the container's lazy `get` (and the results land on the
hot copy); otherwise the stored element itself is used and mutated. -/
def mainLoop (fnEval : String → Recording → List String → String)
    (functions : List String) (argsFn : Option (Recording → ArgsMap))
    (loadAll : Bool) :
    Nat → Nat → RecordingContainer → Option ArgsMap → List MainEvent →
    Option String × RecordingContainer × List MainEvent
  | _, 0, c, _, evs => (none, c, evs)
  | i, rem + 1, c, fargs0, evs =>
    match c.data[i]? with
    | none => (some "IndexError", c, evs)
    | some elem =>
      let fargs := match argsFn with
        | some f => some (f elem)
        | none => fargs0
      match fargs with
      | none => (some "UnboundLocalError", c, evs)
      | some fa =>
        let loaded := if loadAll then
            match c.get i with
            | some pr => pr
            | none => (elem, c)
          else (elem, c)
        let results := runAllFns fnEval functions loaded.1 fa
        let c3 := if loadAll then
            { loaded.2 with
              lastLoaded := { loaded.2.lastLoaded with results := results } }
          else
            { loaded.2 with
              data := loaded.2.data.set i { elem with results := results } }
        mainLoop fnEval functions argsFn loadAll (i + 1) rem c3 fargs
          (evs ++ [.ranAnalysis i])

/-- Oracle inputs of `main`: what the filesystem says about `location`
(`os.path.isdir` / `os.path.isfile`), the scanned configuration-file paths
(`get_all_files_in_dir`), the `Recording` validity resolution, and the
`overwrite` / `only_check` entries of the batch-setup parameter file read
through `ParamHandler`. -/
structure MainInput where
  locIsDir : Bool
  locIsFile : Bool
  scanned : List String
  validOf : String → Bool
  batchOverwrite : Bool
  batchOnlyCheck : Bool

/-- The phase of `main` after batch setup: build the recording container
from the discovery root (a directory, or the directory of a file), sort it
when asked, run the per-recording loop and write the summary table. -/
def mainAfterSetup (inp : MainInput) (location : String)
    (fnEval : String → Recording → List String → String)
    (functions : List String) (argsFn : Option (Recording → ArgsMap))
    (sortFn : Option (Recording → Int)) (reverseSort : Bool)
    (paramName : String) (loadAll : Bool) (evs : List MainEvent) :
    MainOutcome × List MainEvent :=
  if !inp.locIsDir && !inp.locIsFile then (.errored "ValueError", evs)
  else
    let startDir := if inp.locIsDir then location else pathDirname location
    let c := RecordingContainer.autoSetup {} inp.validOf inp.scanned
      startDir paramName
    let c := match sortFn with
      | some k => c.sortBy k reverseSort
      | none => c
    let evs := evs ++ [MainEvent.builtContainer]
    match mainLoop fnEval functions argsFn loadAll 0 c.data.length c
      none evs with
    | (some m, _, evs2) => (.errored m, evs2)
    | (none, _, evs2) => (.completed, evs2 ++ [MainEvent.wroteSummary])

/-- `main(location, functions, attributes_to_save, args_fn, do_batch_setup,
...)` from `main/main.py`.  With batch setup requested, a non-directory
location raises `ValueError`; otherwise the per-recording parameter files
are (re)generated — cleared first when `overwrite` is set without
`only_check` — and a check-only configuration exits with status `-1` right
there, before any container exists.  The remaining flow is
`mainAfterSetup`. -/
def mainRun (inp : MainInput) (location : String)
    (fnEval : String → Recording → List String → String)
    (functions : List String) (argsFn : Option (Recording → ArgsMap))
    (doBatchSetup : Bool) (sortFn : Option (Recording → Int))
    (reverseSort : Bool) (paramName : String) (loadAll : Bool) :
    MainOutcome × List MainEvent :=
  if doBatchSetup then
    if !inp.locIsDir then (.errored "ValueError", [])
    else
      let evs :=
        (if inp.batchOverwrite && !inp.batchOnlyCheck then
          [MainEvent.clearedParams]
        else []) ++ [MainEvent.wroteBatchParams]
      if inp.batchOnlyCheck then (.exited (-1), evs)
      else
        mainAfterSetup inp location fnEval functions argsFn sortFn
          reverseSort paramName loadAll evs
  else
    mainAfterSetup inp location fnEval functions argsFn sortFn
      reverseSort paramName loadAll []

mutual
/-- A representable configuration value per §3 / §4.1 of the spec: scalars
(numbers, strings, booleans), sequences, and nested mappings with string
keys. -/
inductive PyVal where
  | int (n : Int)
  | str (s : String)
  | bool (b : Bool)
  | list (xs : PyList)
  | dict (xs : PyDict)

/-- A sequence of configuration values. -/
inductive PyList where
  | nil
  | cons (v : PyVal) (vs : PyList)

/-- A nested mapping of configuration values, in insertion order. -/
inductive PyDict where
  | nil
  | cons (k : String) (v : PyVal) (vs : PyDict)
end

/-- A top-level configuration key: a string, or a non-string scalar (a small
integer) that the round-trip coerces to its string form. -/
inductive PKey where
  | str (s : String)
  | int (n : Int)

/-- The string form a non-string scalar key is coerced to on write. -/
def keyStr : PKey → String
  | .str s => s
  | .int n => toString n

/-- A token of the serialized configuration script: scalar literals and the
list / mapping delimiters. -/
inductive Tok where
  | tint (n : Int)
  | tstr (s : String)
  | tbool (b : Bool)
  | lbrak
  | rbrak
  | lbrace
  | rbrace
  deriving Repr, DecidableEq

mutual
/-- Modelled from the spec: the value serializer inside `ParamHandler.write`
(the `param_handler` module is not under `src/`).  Per §4.1 `write`
serializes the mapping back to a script whose re-read reproduces it with all
value types preserved. -/
def serVal : PyVal → List Tok
  | .int n => [.tint n]
  | .str s => [.tstr s]
  | .bool b => [.tbool b]
  | .list xs => .lbrak :: serList xs ++ [.rbrak]
  | .dict xs => .lbrace :: serDict xs ++ [.rbrace]

/-- Serialization of a value sequence: the elements in order. -/
def serList : PyList → List Tok
  | .nil => []
  | .cons v vs => serVal v ++ serList vs

/-- Serialization of a mapping: each key as a string literal followed by its
value. -/
def serDict : PyDict → List Tok
  | .nil => []
  | .cons k v vs => .tstr k :: serVal v ++ serDict vs
end

/-- Whether the next token closes a sequence literal. -/
def isCloseBrak : List Tok → Bool
  | [] => false
  | t :: _ => t == Tok.rbrak

/-- Whether the next token closes a mapping literal. -/
def isCloseBrace : List Tok → Bool
  | [] => false
  | t :: _ => t == Tok.rbrace

mutual
/-- Modelled from the spec: the value parser inside `ParamHandler.read`,
fuelled to make termination evident.  A scalar token is itself; `[`
introduces a sequence ended by `]`; `{` introduces a mapping of
string-keyed entries ended by `}`. -/
def parseVal : Nat → List Tok → Option (PyVal × List Tok)
  | 0, _ => none
  | _ + 1, [] => none
  | fuel + 1, t :: ts =>
    match t with
    | .tint n => some (.int n, ts)
    | .tstr s => some (.str s, ts)
    | .tbool b => some (.bool b, ts)
    | .lbrak =>
      match parseListToks fuel ts with
      | some (xs, .rbrak :: rest) => some (.list xs, rest)
      | _ => none
    | .lbrace =>
      match parseDictToks fuel ts with
      | some (xs, .rbrace :: rest) => some (.dict xs, rest)
      | _ => none
    | _ => none

/-- Parses the elements of a sequence literal up to (not consuming) the
closing `]`. -/
def parseListToks : Nat → List Tok → Option (PyList × List Tok)
  | 0, _ => none
  | fuel + 1, ts =>
    if isCloseBrak ts then some (.nil, ts)
    else
      match parseVal fuel ts with
      | none => none
      | some (v, rest) =>
        match parseListToks fuel rest with
        | none => none
        | some (vs, rest2) => some (.cons v vs, rest2)

/-- Parses the entries of a mapping literal up to (not consuming) the
closing `}`. -/
def parseDictToks : Nat → List Tok → Option (PyDict × List Tok)
  | 0, _ => none
  | fuel + 1, ts =>
    if isCloseBrace ts then some (.nil, ts)
    else
      match ts with
      | .tstr k :: ts2 =>
        match parseVal fuel ts2 with
        | none => none
        | some (v, rest) =>
          match parseDictToks fuel rest with
          | none => none
          | some (vs, rest2) => some (.cons k v vs, rest2)
      | _ => none
end

/-- The top-level mapping as written: every key coerced to its string form,
values untouched. -/
def coerceParams : List (PKey × PyVal) → PyDict
  | [] => .nil
  | (k, v) :: rest => .cons (keyStr k) v (coerceParams rest)

/-- Modelled from the spec: `ParamHandler.write(path)` — the script produced
for a top-level mapping is a single mapping literal whose keys are the
string forms of the supplied keys. -/
def writeScript (params : List (PKey × PyVal)) : List Tok :=
  .lbrace :: serDict (coerceParams params) ++ [.rbrace]

/-- Modelled from the spec: `ParamHandler.read(path)` — parses the script
back into the top-level mapping, failing (`ConfigParseError`) when the
script is not a single well-formed mapping. -/
def readScript (toks : List Tok) : Option PyDict :=
  match parseVal (toks.length + 1) toks with
  | some (.dict d, []) => some d
  | _ => none

/-- The coerced key list of a top-level mapping, whose distinctness makes the
mapping a valid dictionary after coercion. -/
def coercedKeys (params : List (PKey × PyVal)) : List String :=
  params.map fun p => keyStr p.1

/-! ## Concrete sample data for the witnesses -/

/-- A concrete recording handle used by the witnesses. -/
def recA : Recording := { sourceFile := "/root/a/simuran_params.py" }

/-- A second concrete recording handle used by the witnesses. -/
def recB : Recording := { sourceFile := "/root/b/simuran_params.py" }

/-- A concrete two-element lazy container. -/
def sampleLazyC : RecordingContainer := { data := [recA, recB] }

/-- The hot copy a first `get 0` on `sampleLazyC` caches. -/
def sampleHot : Recording := (deepcopy recA).load

/-- The container state after a first `get 0` on `sampleLazyC`. -/
def sampleLazyC1 : RecordingContainer :=
  { sampleLazyC with lastLoaded := sampleHot, lastLoadedIdx := some 0 }

/-- A concrete directory scan: two matching parameter files, one matching
but invalid, and one non-matching file name. -/
def sampleScan : List String :=
  ["/root/a/simuran_params.py", "/root/b/simuran_params.py",
   "/root/c/simuran_params.py", "/root/a/other.py"]

/-- A concrete validity oracle: the configuration under `/root/c` resolves
invalid. -/
def sampleValidOf : String → Bool :=
  fun f => f ≠ "/root/c/simuran_params.py"

/-- Three run configurations for the isolation scenario of §8: each carries
its two path references. -/
def c2RunDicts : List Dict :=
  [[("batch_param_loc", .s "/b0"), ("fn_param_loc", .s "/f0")],
   [("batch_param_loc", .s "/b1"), ("fn_param_loc", .s "/f1")],
   [("batch_param_loc", .s "/b2"), ("fn_param_loc", .s "/f2")]]

/-- A `run` oracle that raises on the second configuration only. -/
def c2RunFn : String → String → Dict → RunResult := fun bpl _ _ =>
  if bpl = "/b1" then .exn "boom" else .ok ("res-" ++ bpl) [bpl ++ "/rec"]

/-- A `run` oracle that raises on the first configuration only. -/
def c2RunFnFirst : String → String → Dict → RunResult := fun bpl _ _ =>
  if bpl = "/b0" then .exn "boom" else .ok ("res-" ++ bpl) [bpl ++ "/rec"]

/-- A run configuration dict is well-formed for `get_dict_entry` when it
binds both path keys to strings and, being a Python dict, has no duplicate
keys. -/
def goodRunDict (d : Dict) : Prop :=
  (∃ s, List.lookup "batch_param_loc" d = some (.s s)) ∧
    (∃ s, List.lookup "fn_param_loc" d = some (.s s)) ∧
    (d.map Prod.fst).Nodup

/-- A dict from which `get_dict_entry` has already removed both path keys. -/
def poppedRunDict (d : Dict) : Prop :=
  List.lookup "batch_param_loc" d = none ∧
    List.lookup "fn_param_loc" d = none

/-- A concrete single-entry run list for the destructive-pop witness. -/
def c10RunDicts : List Dict :=
  [[("batch_param_loc", .s "/b0"), ("fn_param_loc", .s "/f0"),
    ("cell", .b true)]]

/-- Concrete oracle inputs of `main` for the check-only witness: a directory
location whose batch-setup parameters request `only_check`. -/
def sampleMainInput : MainInput :=
  { locIsDir := true, locIsFile := false, scanned := sampleScan,
    validOf := sampleValidOf, batchOverwrite := false,
    batchOnlyCheck := true }

/-- The same oracle inputs with `only_check` off, used by the
unbound-`function_args` witness. -/
def sampleMainInputRun : MainInput :=
  { sampleMainInput with batchOnlyCheck := false }

/-- A trivial concrete analysis-function oracle. -/
def sampleFnEval : String → Recording → List String → String :=
  fun _ _ _ => "r"

/-- The top-level mapping of `test_param_load`: a string key, a non-string
scalar key, and a nested mapping — the round-trip witness input. -/
def sampleParams : List (PKey × PyVal) :=
  [(.str "hello_world", .str "banana"),
   (.int 0, .list (.cons (.int 1) (.cons (.int 10) (.cons (.int 14)
     .nil)))),
   (.str "chans", .dict (.cons "1" (.str "b") .nil))]

/-! ## Supporting lemmas -/

/-- A successful lazy `get` leaves the container with the requested index
recorded as last materialized, the returned recording cached as hot, and the
stored sequence and flags untouched. -/
theorem get_lazy_state (c : RecordingContainer) (idx : Nat)
    (r1 : Recording) (c1 : RecordingContainer)
    (hl : c.loadOnFly = true) (h1 : c.get idx = some (r1, c1)) :
    c1.loadOnFly = true ∧ c1.lastLoadedIdx = some idx ∧
      c1.lastLoaded = r1 ∧ c1.data = c.data := by
  by_cases hi : c.lastLoadedIdx = some idx
  · simp [RecordingContainer.get, hl, hi] at h1
    obtain ⟨h1a, h1b⟩ := h1
    subst h1b
    simp [hl, hi, h1a]
  · simp [RecordingContainer.get, hl, hi] at h1
    cases hd : c.data[idx]? with
    | none => simp [hd] at h1
    | some r =>
      simp [hd] at h1
      obtain ⟨h1a, h1b⟩ := h1
      subst h1b
      simp [hl, h1a]

/-- Any `get` call (lazy or not, in range or not) leaves `data`, `loadOnFly`
and `baseDir` unchanged in the resulting state. -/
theorem getState_frame (c : RecordingContainer) (idx : Nat) :
    (c.getState idx).data = c.data ∧
      (c.getState idx).loadOnFly = c.loadOnFly ∧
      (c.getState idx).baseDir = c.baseDir := by
  by_cases hl : c.loadOnFly
  · by_cases hi : c.lastLoadedIdx = some idx
    · simp [RecordingContainer.getState, RecordingContainer.get, hl, hi]
    · cases hd : c.data[idx]? <;>
        simp [RecordingContainer.getState, RecordingContainer.get, hl, hi, hd]
  · cases hd : c.data[idx]? <;>
      simp [RecordingContainer.getState, RecordingContainer.get, hl, hd]

/-- The `source_file` values appended by the `setup` loop are exactly the
valid parameter files, in order. -/
theorem setupLoop_sources (validOf : String → Bool) (shouldLoad : Bool)
    (fs : List String) :
    (setupLoop validOf shouldLoad fs).map Recording.sourceFile =
      fs.filter validOf := by
  induction fs with
  | nil => rfl
  | cons f rest ih =>
    by_cases hv : validOf f <;>
      simp [setupLoop, mkRecording, hv, ih, List.filter_cons]

/-- Every recording the `setup` loop keeps carries a true validity flag. -/
theorem setupLoop_valid (validOf : String → Bool) (shouldLoad : Bool)
    (fs : List String) :
    ∀ r ∈ setupLoop validOf shouldLoad fs, r.valid = true := by
  induction fs with
  | nil => intro r hr; simp [setupLoop] at hr
  | cons f rest ih =>
    intro r hr
    by_cases hv : validOf f
    · simp [setupLoop, mkRecording, hv] at hr
      rcases hr with hr | hr
      · subst hr; simp [mkRecording, hv]
      · exact ih r hr
    · simp [setupLoop, mkRecording, hv] at hr
      exact ih r hr

/-! ## Claim theorems -/

/-- C3: in lazy mode, a `get(idx)` repeated at the same index returns the
identical cached hot instance with the container unchanged (no reload);
`get(idx2)` at a different index replaces the hot slot with a loaded deep
copy of the stored element at `idx2`, performs exactly one load on that
copy, records `idx2` as last materialized, and returns the new hot copy. -/
theorem lazy_get_caches_and_evicts (c : RecordingContainer)
    (idx : Nat) (r1 : Recording) (c1 : RecordingContainer)
    (hl : c.loadOnFly = true) (h1 : c.get idx = some (r1, c1)) :
    c1.get idx = some (r1, c1) ∧ c1.lastLoaded = r1 ∧
      (∀ idx2 v, idx2 ≠ idx → c1.data[idx2]? = some v →
        c1.get idx2 =
          some ((deepcopy v).load,
            { c1 with lastLoaded := (deepcopy v).load,
                      lastLoadedIdx := some idx2 }) ∧
          ((deepcopy v).load).loadCount = v.loadCount + 1 ∧
          ((deepcopy v).load).loaded = true) := by
  obtain ⟨hfly, hidx, hhot, _⟩ := get_lazy_state c idx r1 c1 hl h1
  refine ⟨?_, hhot, ?_⟩
  · simp [RecordingContainer.get, hfly, hidx, hhot]
  · intro idx2 v hne hv
    have hne2 : c1.lastLoadedIdx ≠ some idx2 := by
      rw [hidx]; intro hcon
      exact hne (Option.some_injective _ hcon).symm
    constructor
    · simp [RecordingContainer.get, hfly, hne2, hv]
    · simp [Recording.load, deepcopy]

/-- C3 witness: a concrete two-element lazy container exercising both the
repeated-index and changed-index behaviour of `get`. -/
theorem lazy_get_caches_and_evicts_witness :
    (sampleLazyC.loadOnFly = true) ∧
      (sampleLazyC.get 0 = some (sampleHot, sampleLazyC1)) ∧
      (sampleLazyC1.get 0 = some (sampleHot, sampleLazyC1) ∧
        sampleLazyC1.lastLoaded = sampleHot ∧
        (∀ idx2 v, idx2 ≠ 0 → sampleLazyC1.data[idx2]? = some v →
          sampleLazyC1.get idx2 =
            some ((deepcopy v).load,
              { sampleLazyC1 with lastLoaded := (deepcopy v).load,
                                  lastLoadedIdx := some idx2 }) ∧
            ((deepcopy v).load).loadCount = v.loadCount + 1 ∧
            ((deepcopy v).load).loaded = true)) :=
  ⟨rfl, rfl, lazy_get_caches_and_evicts sampleLazyC 0 sampleHot sampleLazyC1
    rfl rfl⟩

/-- C4: in lazy mode, no sequence of `get` calls ever mutates, removes or
reorders the authoritative stored sequence — loading happens only on the
hot-slot copy. -/
theorem get_preserves_stored_sequence (c : RecordingContainer)
    (idxs : List Nat) (_hl : c.loadOnFly = true) :
    (c.getSeq idxs).data = c.data := by
  clear _hl
  induction idxs generalizing c with
  | nil => rfl
  | cons i rest ih =>
    have hstep := (getState_frame c i).1
    calc (c.getSeq (i :: rest)).data
        = ((c.getState i).getSeq rest).data := rfl
      _ = (c.getState i).data := ih (c.getState i)
      _ = c.data := hstep

/-- C4 witness: the concrete lazy container is untouched in its stored
sequence by a sequence of `get` calls, including repeats and out-of-range
indices. -/
theorem get_preserves_stored_sequence_witness :
    (sampleLazyC.loadOnFly = true) ∧
      (sampleLazyC.getSeq [0, 0, 1, 5, 0]).data = sampleLazyC.data :=
  ⟨rfl, get_preserves_stored_sequence sampleLazyC [0, 0, 1, 5, 0] rfl⟩

/-- C5: `setup` (and hence `auto_setup`) on a fresh container with distinct
discovered paths yields elements with pairwise distinct `source_file`
values, keeps no recording whose construction resolved invalid, and sets
`base_dir` to the discovery root. -/
theorem setup_unique_valid_sources (c0 : RecordingContainer)
    (validOf : String → Bool) (files : List String)
    (startDir paramName : String)
    (hempty : c0.data = []) (hnd : files.Nodup) :
    ((c0.setup validOf files startDir paramName).data.map
        Recording.sourceFile).Nodup ∧
      (∀ r ∈ (c0.setup validOf files startDir paramName).data,
        r.valid = true) ∧
      (c0.setup validOf files startDir paramName).baseDir = some startDir := by
  refine ⟨?_, ?_, rfl⟩
  · simp only [RecordingContainer.setup, hempty, List.nil_append]
    rw [setupLoop_sources]
    exact (hnd.filter _).filter _
  · intro r hr
    simp only [RecordingContainer.setup, hempty, List.nil_append] at hr
    exact setupLoop_valid validOf _ _ r hr

/-- C5 witness: a concrete scan with a duplicate basename, a non-matching
file and an invalid configuration. -/
theorem setup_unique_valid_sources_witness :
    (({} : RecordingContainer).data = []) ∧
      sampleScan.Nodup ∧
      ((({} : RecordingContainer).setup sampleValidOf sampleScan "/root"
          "simuran_params.py").data.map Recording.sourceFile).Nodup ∧
      (∀ r ∈ (({} : RecordingContainer).setup sampleValidOf sampleScan "/root"
          "simuran_params.py").data, r.valid = true) ∧
      (({} : RecordingContainer).setup sampleValidOf sampleScan "/root"
          "simuran_params.py").baseDir = some "/root" := by
  refine ⟨rfl, by decide, ?_⟩
  exact setup_unique_valid_sources {} sampleValidOf sampleScan "/root"
    "simuran_params.py" rfl (by decide)

/-- The `run`-invocation events `batch_run` derives from a `batch_main`
trace never contain a post-batch callback event. -/
theorem runCall_events_no_afterBatch (l : List (String × String)) :
    (l.map fun p => BatchEvent.runCall p.1 p.2).filter
      BatchEvent.isAfterBatch = [] := by
  induction l with
  | nil => rfl
  | cons h t ih => simp [BatchEvent.isAfterBatch, ih]

/-- The value `batch_run` returns is the value its body computed: the
closing callback step never changes it. -/
theorem afterBatchStep_ret (abf : Option AfterBatchFn) (oc : Bool)
    (outDir : String) (res : Except String BatchInfo × List BatchEvent) :
    (afterBatchStep abf oc outDir res).ret = res.1 := by
  obtain ⟨r, evs⟩ := res
  cases r with
  | error e => rfl
  | ok info => rfl

/-- Characterization of the callback events added by the closing step of
`batch_run`, given that none were present before it. -/
theorem afterBatchStep_filter (abf : Option AfterBatchFn) (oc : Bool)
    (outDir : String) (res : Except String BatchInfo × List BatchEvent)
    (hres : res.2.filter BatchEvent.isAfterBatch = []) :
    (afterBatchStep abf oc outDir res).events.filter
      BatchEvent.isAfterBatch =
      (match res.1, abf, oc with
       | .ok info, some (.fn f), false =>
         [.afterBatchCall f info outDir]
       | _, _, _ => []) := by
  obtain ⟨r, evs⟩ := res
  cases r with
  | error e => simpa [afterBatchStep] using hres
  | ok info =>
    rcases abf with _ | abf1
    · simpa [afterBatchStep, List.filter_append] using hres
    · cases abf1 with
      | save => simpa [afterBatchStep, List.filter_append] using hres
      | fn f =>
        cases oc <;>
          simp [afterBatchStep, List.filter_append, hres,
            BatchEvent.isAfterBatch]

/-- The non-cached path of `batch_run` returns exactly what `batch_main`
returned. -/
theorem batchRunCompute_ret (bm : BatchMainOut) (pickleName : String)
    (oc inone m : Bool) :
    (batchRunCompute bm pickleName oc inone m).1 = bm.ret := by
  cases hr : bm.ret <;> simp [batchRunCompute, hr]

/-- The non-cached path of `batch_run` emits no callback event itself. -/
theorem batchRunCompute_no_afterBatch (bm : BatchMainOut)
    (pickleName : String) (oc inone m : Bool) :
    (batchRunCompute bm pickleName oc inone m).2.filter
      BatchEvent.isAfterBatch = [] := by
  cases hr : bm.ret with
  | error e =>
    simp [batchRunCompute, hr, BatchEvent.isAfterBatch,
      runCall_events_no_afterBatch]
  | ok info =>
    cases hcond : (!oc && inone) <;> cases m <;>
      simp [batchRunCompute, hr, hcond, BatchEvent.isAfterBatch,
        runCall_events_no_afterBatch, List.filter_append]

/-- C1: a batch invocation with no selected index, no check-only flag and no
overwrite request, whose cache file exists, returns the deserialized cached
aggregate, and its event trace contains no `batch_main` pass and no `run`
invocation — no run-configuration pass and no analysis function executes. -/
theorem cached_batch_skips_analysis
    (runFn : String → String → Dict → RunResult)
    (fsIsFile : String → Bool) (cacheContent : String → BatchInfo)
    (runDictLoc : String) (params : RunParams)
    (functionToUse : Option String) (handleErrors merge : Bool)
    (kwargs : Dict)
    (hcheck : kwGetBool kwargs "only_check" = false)
    (hcache : fsIsFile (pickleNameOf runDictLoc functionToUse) = true) :
    (batch_run runFn fsIsFile cacheContent runDictLoc params functionToUse
        none handleErrors false merge kwargs).ret =
      .ok (cacheContent (pickleNameOf runDictLoc functionToUse)) ∧
      ∀ e ∈ (batch_run runFn fsIsFile cacheContent runDictLoc params
          functionToUse none handleErrors false merge kwargs).events,
        e.isRunWork = false := by
  simp only [batch_run, hcheck, hcache, Option.isNone_none, Bool.not_false,
    Bool.and_self, Bool.and_true, Bool.true_and, if_true]
  cases habf : params.afterBatchFn with
  | none => simp [afterBatchStep, BatchEvent.isRunWork]
  | some f =>
    cases f <;> simp [afterBatchStep, BatchEvent.isRunWork, hcheck]

/-- C1 witness: a concrete run-description path and an all-`true` filesystem
oracle; the cache hit short-circuits the whole batch. -/
theorem cached_batch_skips_analysis_witness :
    (kwGetBool [] "only_check" = false) ∧
      ((fun _ => true) : String → Bool)
        (pickleNameOf "/root/run.py" none) = true ∧
      ((batch_run (fun _ _ _ => .exn "sentinel") (fun _ => true)
          (fun _ => .aggregate []) "/root/run.py" {} none none false false
          true []).ret = .ok ((fun _ => .aggregate
            ([] : List (String × List String))) (pickleNameOf "/root/run.py"
            none)) ∧
        ∀ e ∈ (batch_run (fun _ _ _ => .exn "sentinel") (fun _ => true)
            (fun _ => .aggregate []) "/root/run.py" {} none none false false
            true []).events, e.isRunWork = false) :=
  ⟨rfl, rfl, cached_batch_skips_analysis (fun _ _ _ => .exn "sentinel")
    (fun _ => true) (fun _ => .aggregate []) "/root/run.py" {} none false
    true [] rfl rfl⟩

/-- C8: the post-batch callback events of any `batch_run` invocation are
exactly one call carrying the full returned aggregate and the output
directory when the run returned successfully, was not check-only, and a
callable (not the literal `"save"`, not absent) was configured — and none
otherwise. -/
theorem after_batch_callback_policy
    (runFn : String → String → Dict → RunResult)
    (fsIsFile : String → Bool) (cacheContent : String → BatchInfo)
    (runDictLoc : String) (params : RunParams)
    (functionToUse : Option String) (idx : Option Nat)
    (handleErrors overwrite merge : Bool) (kwargs : Dict) :
    (batch_run runFn fsIsFile cacheContent runDictLoc params functionToUse
        idx handleErrors overwrite merge kwargs).events.filter
      BatchEvent.isAfterBatch =
      (match (batch_run runFn fsIsFile cacheContent runDictLoc params
          functionToUse idx handleErrors overwrite merge kwargs).ret,
          params.afterBatchFn, kwGetBool kwargs "only_check" with
       | .ok info, some (.fn f), false =>
         [.afterBatchCall f info (outDirOf runDictLoc)]
       | _, _, _ => []) := by
  simp only [batch_run]
  by_cases hc : (idx.isNone && !kwGetBool kwargs "only_check" &&
      fsIsFile (pickleNameOf runDictLoc functionToUse) && !overwrite) = true
  · rw [if_pos hc, afterBatchStep_filter _ _ _ _ (by rfl), afterBatchStep_ret]
  · rw [if_neg hc,
      afterBatchStep_filter _ _ _ _ (batchRunCompute_no_afterBatch _ _ _ _ _),
      afterBatchStep_ret]

/-- C2 (code bug): with error isolation and result saving on, `batch_main`
over three run configurations whose second iteration raises does NOT simply
omit the failed iteration — the `if save_info:` block sits outside the
`try`, so the failing iteration re-appends the previous iteration's
still-bound `results` / `recording_container` locals, yielding a stale
duplicate entry; and when the very first iteration raises, those locals were
never bound, so the run crashes with a `NameError` despite
`handle_errors=True` ("don't crash on errors"). -/
theorem isolated_batch_keeps_stale_entry :
    (batch_main c2RunFn c2RunDicts none none true true []).ret =
      .ok (.aggregate
        [("res-/b0", ["/b0/rec"]), ("res-/b0", ["/b0/rec"]),
         ("res-/b2", ["/b2/rec"])]) ∧
      (batch_main c2RunFnFirst c2RunDicts none none true true []).ret =
        .error "NameError" :=
  ⟨rfl, rfl⟩

/-- A key that is not among a dict's keys looks up to nothing. -/
theorem lookup_eq_none_of_not_mem_keys (d : Dict) (k : String)
    (h : k ∉ d.map Prod.fst) : List.lookup k d = none := by
  induction d with
  | nil => rfl
  | cons p rest ih =>
    simp only [List.map_cons, List.mem_cons] at h
    push_neg at h
    obtain ⟨p1, p2⟩ := p
    rw [List.lookup_cons]
    have hne : (k == p1) = false := by
      simp [h.1]
    simp [hne, ih h.2]

/-- A present key can be popped, yielding its bound value. -/
theorem dpop_of_lookup (d : Dict) (k : String) (v : PVal)
    (h : List.lookup k d = some v) : ∃ d2, dpop d k = some (v, d2) := by
  induction d with
  | nil => simp [List.lookup] at h
  | cons p rest ih =>
    obtain ⟨p1, p2⟩ := p
    rw [List.lookup_cons] at h
    by_cases hk : k = p1
    · subst hk
      simp at h
      subst h
      exact ⟨rest, by simp [dpop]⟩
    · have hne : (k == p1) = false := by simp [hk]
      simp [hne] at h
      obtain ⟨d2, hd2⟩ := ih h
      refine ⟨(p1, p2) :: d2, ?_⟩
      simp [dpop, Ne.symm hk, hd2]

/-- An absent key cannot be popped. -/
theorem dpop_of_lookup_none (d : Dict) (k : String)
    (h : List.lookup k d = none) : dpop d k = none := by
  induction d with
  | nil => rfl
  | cons p rest ih =>
    obtain ⟨p1, p2⟩ := p
    rw [List.lookup_cons] at h
    by_cases hk : k = p1
    · simp [hk] at h
    · have hne : (k == p1) = false := by simp [hk]
      simp only [hne] at h
      simp [dpop, Ne.symm hk, ih h]

/-- Popping one key does not change what any other key looks up to. -/
theorem dpop_lookup_other (d : Dict) (k : String) (v : PVal) (d2 : Dict)
    (h : dpop d k = some (v, d2)) :
    ∀ k2, k2 ≠ k → List.lookup k2 d2 = List.lookup k2 d := by
  induction d generalizing v d2 with
  | nil => simp [dpop] at h
  | cons p rest ih =>
    obtain ⟨p1, p2⟩ := p
    intro k2 hk2
    by_cases hk : p1 = k
    · simp [dpop, hk] at h
      obtain ⟨h1, h2⟩ := h
      subst h2
      rw [List.lookup_cons]
      have hne : (k2 == p1) = false := by rw [hk]; simp [hk2]
      simp only [hne]
    · simp only [dpop, if_neg hk] at h
      cases hrec : dpop rest k with
      | none => simp [hrec] at h
      | some pr =>
        obtain ⟨v3, rest3⟩ := pr
        simp only [hrec] at h
        rw [Option.some_inj, Prod.mk.injEq] at h
        obtain ⟨h1, h2⟩ := h
        subst h2
        rw [List.lookup_cons, List.lookup_cons]
        cases he : (k2 == p1) with
        | true => simp only
        | false => simp only [ih v3 rest3 hrec k2 hk2]

/-- After popping a key from a duplicate-free dict, the key is gone. -/
theorem dpop_lookup_self (d : Dict) (k : String) (v : PVal) (d2 : Dict)
    (hnd : (d.map Prod.fst).Nodup) (h : dpop d k = some (v, d2)) :
    List.lookup k d2 = none := by
  induction d generalizing v d2 with
  | nil => simp [dpop] at h
  | cons p rest ih =>
    obtain ⟨p1, p2⟩ := p
    simp only [List.map_cons, List.nodup_cons] at hnd
    by_cases hk : p1 = k
    · simp [dpop, hk] at h
      obtain ⟨h1, h2⟩ := h
      subst h2
      subst hk
      exact lookup_eq_none_of_not_mem_keys rest p1 hnd.1
    · simp only [dpop, if_neg hk] at h
      cases hrec : dpop rest k with
      | none => simp [hrec] at h
      | some pr =>
        obtain ⟨v3, rest3⟩ := pr
        simp only [hrec] at h
        rw [Option.some_inj, Prod.mk.injEq] at h
        obtain ⟨h1, h2⟩ := h
        subst h2
        rw [List.lookup_cons]
        have hne : (k == p1) = false := by simp [Ne.symm hk]
        simp only [hne, ih v3 rest3 hnd.2 hrec]

/-- Popping a key keeps the remaining keys a sublist of the original. -/
theorem dpop_keys_sublist (d : Dict) (k : String) (v : PVal) (d2 : Dict)
    (h : dpop d k = some (v, d2)) :
    (d2.map Prod.fst).Sublist (d.map Prod.fst) := by
  induction d generalizing v d2 with
  | nil => simp [dpop] at h
  | cons p rest ih =>
    obtain ⟨p1, p2⟩ := p
    by_cases hk : p1 = k
    · simp [dpop, hk] at h
      obtain ⟨h1, h2⟩ := h
      subst h2
      exact (List.sublist_cons_self _ _)
    · simp only [dpop, if_neg hk] at h
      cases hrec : dpop rest k with
      | none => simp [hrec] at h
      | some pr =>
        obtain ⟨v3, rest3⟩ := pr
        simp [hrec] at h
        obtain ⟨h1, h2⟩ := h
        subst h2
        simpa using (ih v3 rest3 (by simp [hrec, h1])).cons₂ p1

/-- On a well-formed run configuration, `get_dict_entry`'s two pops succeed
and leave a dict bound to neither path key. -/
theorem popBoth_spec (d : Dict) (hgood : goodRunDict d) :
    ∃ bpl fpl d1 d2,
      dpop d "batch_param_loc" = some (.s bpl, d1) ∧
        dpop d1 "fn_param_loc" = some (.s fpl, d2) ∧
        poppedRunDict d2 := by
  obtain ⟨⟨bpl, hb⟩, ⟨fpl, hf⟩, hnd⟩ := hgood
  obtain ⟨d1, hd1⟩ := dpop_of_lookup d _ _ hb
  have hf1 : List.lookup "fn_param_loc" d1 = some (.s fpl) := by
    rw [dpop_lookup_other d _ _ d1 hd1 _ (by decide)]
    exact hf
  obtain ⟨d2, hd2⟩ := dpop_of_lookup d1 _ _ hf1
  have hnd1 : (d1.map Prod.fst).Nodup :=
    (dpop_keys_sublist d _ _ d1 hd1).nodup hnd
  refine ⟨bpl, fpl, d1, d2, hd1, hd2, ?_, ?_⟩
  · rw [dpop_lookup_other d1 _ _ d2 hd2 _ (by decide)]
    exact dpop_lookup_self d _ _ d1 hnd hd1
  · exact dpop_lookup_self d1 _ _ d2 hnd1 hd2

/-- Completing the `batch_main` loop with error isolation on and no result
saving pops both path keys out of every dict of the caller's list, in
place. -/
theorem batchMainLoop_pops (runFn : String → String → Dict → RunResult)
    (ftu : Option String) (kwargs : Dict) :
    ∀ (rem i : Nat) (lst : List Dict)
      (bound : Option (String × List String))
      (acc : List (String × List String)) (calls : List (String × String)),
      lst.length = i + rem →
      (∀ (j : Nat) (d : Dict), j < i → lst[j]? = some d →
        poppedRunDict d) →
      (∀ (j : Nat) (d : Dict), i ≤ j → lst[j]? = some d → goodRunDict d) →
      ((batchMainLoop runFn ftu true false kwargs i rem lst bound acc
          calls).finalList.length = lst.length ∧
        ∀ (j : Nat) (d : Dict), (batchMainLoop runFn ftu true false kwargs
            i rem lst bound acc calls).finalList[j]? = some d →
          poppedRunDict d) := by
  intro rem
  induction rem with
  | zero =>
    intro i lst bound acc calls hlen hpop hgood
    refine ⟨rfl, ?_⟩
    intro j d hj
    have hjlt : j < lst.length := (List.getElem?_eq_some.mp hj).1
    exact hpop j d (by omega) hj
  | succ rem ih =>
    intro i lst bound acc calls hlen hpop hgood
    have hilt : i < lst.length := by omega
    have hdi : lst[i]? = some lst[i] :=
      List.getElem?_eq_some.mpr ⟨hilt, rfl⟩
    have hgi := hgood i _ (Nat.le_refl i) hdi
    obtain ⟨bpl, fpl, d1, d2, hp1, hp2, hpopd2⟩ :=
      popBoth_spec _ hgi
    have hde : ∃ out, getDictEntry ftu lst i = (.ok out, lst.set i d2) := by
      cases ftu with
      | none =>
        exact ⟨(abspath bpl, abspath fpl, d2), by
          simp [getDictEntry, hdi, hp1, hp2]⟩
      | some f =>
        exact ⟨(abspath bpl, abspath f, d2), by
          simp [getDictEntry, hdi, hp1, hp2]⟩
    obtain ⟨⟨bpl2, fpl2, rd2⟩, hde⟩ := hde
    have hlen2 : (lst.set i d2).length = (i + 1) + rem := by
      rw [List.length_set]; omega
    have hpop2 : ∀ (j : Nat) (d : Dict), j < i + 1 →
        (lst.set i d2)[j]? = some d → poppedRunDict d := by
      intro j d hji hj
      by_cases hji2 : j = i
      · subst hji2
        rw [List.getElem?_set, if_pos rfl, if_pos hilt] at hj
        rw [Option.some_inj] at hj
        subst hj
        exact hpopd2
      · rw [List.getElem?_set_ne (fun hc => hji2 hc.symm)] at hj
        exact hpop j d (by omega) hj
    have hgood2 : ∀ (j : Nat) (d : Dict), i + 1 ≤ j →
        (lst.set i d2)[j]? = some d → goodRunDict d := by
      intro j d hji hj
      rw [List.getElem?_set_ne (by omega)] at hj
      exact hgood j d (by omega) hj
    have happly := fun bound2 acc2 calls2 =>
      ih (i + 1) (lst.set i d2) bound2 acc2 calls2 hlen2 hpop2 hgood2
    have hfin : ∀ bound2 acc2 calls2,
        ((batchMainLoop runFn ftu true false kwargs (i + 1) rem
            (lst.set i d2) bound2 acc2 calls2).finalList.length =
          lst.length ∧
          ∀ (j : Nat) (d : Dict), (batchMainLoop runFn ftu true false
              kwargs (i + 1) rem (lst.set i d2) bound2 acc2
              calls2).finalList[j]? = some d → poppedRunDict d) := by
      intro bound2 acc2 calls2
      have h := happly bound2 acc2 calls2
      rw [List.length_set] at h
      exact h
    simp only [batchMainLoop]
    rw [hde]
    cases hrun : runFn bpl2 fpl2 (dictMerge rd2 kwargs) with
    | exn m =>
      simpa [hrun] using hfin bound acc (calls ++ [(bpl2, fpl2)])
    | ok r f =>
      simpa [hrun] using hfin (some (r, f)) acc (calls ++ [(bpl2, fpl2)])

/-- C10: `batch_main` pops `batch_param_loc` and `fn_param_loc` out of each
dict of the caller's run-configuration list in place as iterations are
prepared: after a completed pass (error isolation on, no result saving)
every entry of the list has lost both keys, and a second invocation of
`batch_main` — with any flags, and hence any `batch_run` reaching it — over
that same in-memory list raises `KeyError` at its first iteration instead
of re-running. -/
theorem run_dicts_destructively_popped
    (runFn runFn2 : String → String → Dict → RunResult)
    (lst : List Dict) (ftu ftu2 : Option String) (kwargs kwargs2 : Dict)
    (he2 si2 : Bool)
    (hgood : ∀ d ∈ lst, goodRunDict d) (hne : lst ≠ []) :
    (∀ d ∈ (batch_main runFn lst ftu none true false kwargs).finalList,
        poppedRunDict d) ∧
      (batch_main runFn2
          (batch_main runFn lst ftu none true false kwargs).finalList
          ftu2 none he2 si2 kwargs2).ret = .error "KeyError" := by
  obtain ⟨hlen, hpop⟩ := batchMainLoop_pops runFn ftu kwargs lst.length 0
    lst none [] [] (by omega) (by intro j d hj; omega)
    (by
      intro j d hij hj
      exact hgood d (List.mem_iff_getElem?.mpr ⟨j, hj⟩))
  have hbm : batch_main runFn lst ftu none true false kwargs =
      batchMainLoop runFn ftu true false kwargs 0 lst.length lst none []
        [] := rfl
  rw [hbm]
  rw [hbm] at *
  constructor
  · intro d hd
    obtain ⟨j, hj⟩ := List.mem_iff_getElem?.mp hd
    exact hpop j d hj
  · have hflne : (batchMainLoop runFn ftu true false kwargs 0 lst.length
        lst none [] []).finalList ≠ [] := by
      intro hcon
      rw [hcon] at hlen
      simp at hlen
      exact hne (List.length_eq_zero.mp hlen.symm)
    obtain ⟨d0, tl, hfl⟩ := List.exists_cons_of_ne_nil hflne
    have h0 : (batchMainLoop runFn ftu true false kwargs 0 lst.length lst
        none [] []).finalList[0]? = some d0 := by
      rw [hfl]; simp
    have hpop0 := hpop 0 d0 h0
    have hdp : dpop d0 "batch_param_loc" = none :=
      dpop_of_lookup_none d0 _ hpop0.1
    rw [hfl]
    simp only [batch_main, List.length_cons, batchMainLoop]
    simp [getDictEntry, hdp]

/-- C10 witness: a concrete single-configuration list is stripped of both
path keys by a first `batch_main` pass, and a second pass over it raises
`KeyError`. -/
theorem run_dicts_destructively_popped_witness :
    (∀ d ∈ c10RunDicts, goodRunDict d) ∧ c10RunDicts ≠ [] ∧
      ((∀ d ∈ (batch_main (fun _ _ _ => .ok "r" []) c10RunDicts none none
          true false []).finalList, poppedRunDict d) ∧
        (batch_main (fun _ _ _ => .exn "boom")
            (batch_main (fun _ _ _ => .ok "r" []) c10RunDicts none none
              true false []).finalList
            none none false true []).ret = .error "KeyError") := by
  refine ⟨?_, by simp [c10RunDicts], ?_⟩
  · intro d hd
    rw [c10RunDicts, List.mem_singleton] at hd
    subst hd
    exact ⟨⟨"/b0", rfl⟩, ⟨"/f0", rfl⟩, by decide⟩
  · exact run_dicts_destructively_popped (fun _ _ _ => .ok "r" [])
      (fun _ _ _ => .exn "boom") c10RunDicts none none [] [] false true
      (by
        intro d hd
        rw [c10RunDicts, List.mem_singleton] at hd
        subst hd
        exact ⟨⟨"/b0", rfl⟩, ⟨"/f0", rfl⟩, by decide⟩)
      (by simp [c10RunDicts])

/-- C7: a run whose batch setup is enabled and whose batch-setup
configuration sets `only_check` terminates with the distinct non-zero exit
status `-1` right after the per-recording configuration files are
validated/generated: the result is literally the exit outcome with
`wroteBatchParams` as the only event, so no recording container is built
and no analysis function executes in that run. -/
theorem check_only_exits_before_analysis (inp : MainInput)
    (location : String)
    (fnEval : String → Recording → List String → String)
    (functions : List String) (argsFn : Option (Recording → ArgsMap))
    (sortFn : Option (Recording → Int)) (reverseSort : Bool)
    (paramName : String) (loadAll : Bool)
    (hdir : inp.locIsDir = true) (hoc : inp.batchOnlyCheck = true) :
    mainRun inp location fnEval functions argsFn true sortFn reverseSort
        paramName loadAll =
      (.exited (-1), [MainEvent.wroteBatchParams]) ∧
      ((-1 : Int) ≠ 0) ∧
      MainEvent.builtContainer ∉
        (mainRun inp location fnEval functions argsFn true sortFn
          reverseSort paramName loadAll).2 ∧
      ∀ i, MainEvent.ranAnalysis i ∉
        (mainRun inp location fnEval functions argsFn true sortFn
          reverseSort paramName loadAll).2 := by
  have hmain : mainRun inp location fnEval functions argsFn true sortFn
      reverseSort paramName loadAll =
      (.exited (-1), [MainEvent.wroteBatchParams]) := by
    simp [mainRun, hdir, hoc]
  refine ⟨hmain, by decide, ?_, ?_⟩
  · rw [hmain]; simp
  · intro i; rw [hmain]; simp

/-- C7 witness: concrete check-only batch-setup inputs. -/
theorem check_only_exits_before_analysis_witness :
    (sampleMainInput.locIsDir = true) ∧
      (sampleMainInput.batchOnlyCheck = true) ∧
      (mainRun sampleMainInput "/root" sampleFnEval ["fnA"] none true none
          false "simuran_params.py" false =
        (.exited (-1), [MainEvent.wroteBatchParams]) ∧
        ((-1 : Int) ≠ 0) ∧
        MainEvent.builtContainer ∉
          (mainRun sampleMainInput "/root" sampleFnEval ["fnA"] none true
            none false "simuran_params.py" false).2 ∧
        ∀ i, MainEvent.ranAnalysis i ∉
          (mainRun sampleMainInput "/root" sampleFnEval ["fnA"] none true
            none false "simuran_params.py" false).2) :=
  ⟨rfl, rfl, check_only_exits_before_analysis sampleMainInput "/root"
    sampleFnEval ["fnA"] none none false "simuran_params.py" false rfl rfl⟩

/-- C9: with `args_fn` left at its default `None` and a non-empty recording
container, the per-recording loop of `main` references the never-assigned
local `function_args` in its progress-bar description and raises
`UnboundLocalError` on the first iteration, before any analysis function
executes — `main` in fact requires a non-`None` `args_fn` although the
parameter is declared optional. -/
theorem args_fn_none_raises_unbound_local (inp : MainInput)
    (location : String)
    (fnEval : String → Recording → List String → String)
    (functions : List String) (reverseSort : Bool) (paramName : String)
    (loadAll : Bool)
    (hdir : inp.locIsDir = true)
    (hne : setupLoop inp.validOf false
        (inp.scanned.filter fun f => pathBasename f = paramName) ≠ []) :
    mainRun inp location fnEval functions none false none reverseSort
        paramName loadAll =
      (.errored "UnboundLocalError", [MainEvent.builtContainer]) ∧
      ∀ i, MainEvent.ranAnalysis i ∉
        (mainRun inp location fnEval functions none false none reverseSort
          paramName loadAll).2 := by
  obtain ⟨a, l, hfl⟩ := List.exists_cons_of_ne_nil hne
  have hmain : mainRun inp location fnEval functions none false none
      reverseSort paramName loadAll =
      (.errored "UnboundLocalError", [MainEvent.builtContainer]) := by
    simp [mainRun, mainAfterSetup, hdir, RecordingContainer.autoSetup,
      RecordingContainer.setup, hfl, mainLoop]
  refine ⟨hmain, ?_⟩
  intro i
  rw [hmain]
  simp

/-- C9 witness: the concrete scan yields a two-element container, and
`main` with the default `args_fn` fails before any analysis. -/
theorem args_fn_none_raises_unbound_local_witness :
    (sampleMainInputRun.locIsDir = true) ∧
      (setupLoop sampleMainInputRun.validOf false
        (sampleMainInputRun.scanned.filter fun f =>
          pathBasename f = "simuran_params.py") ≠ []) ∧
      (mainRun sampleMainInputRun "/root" sampleFnEval ["fnA"] none false
          none false "simuran_params.py" true =
        (.errored "UnboundLocalError", [MainEvent.builtContainer]) ∧
        ∀ i, MainEvent.ranAnalysis i ∉
          (mainRun sampleMainInputRun "/root" sampleFnEval ["fnA"] none
            false none false "simuran_params.py" true).2) :=
  ⟨rfl, by decide, args_fn_none_raises_unbound_local sampleMainInputRun
    "/root" sampleFnEval ["fnA"] false "simuran_params.py" true rfl
    (by decide)⟩

/-- Every serialized value is at least one token long. -/
theorem serVal_length_pos (v : PyVal) : 1 ≤ (serVal v).length := by
  cases v <;> simp [serVal]

/-- A serialized value never starts with a sequence-closing token. -/
theorem isCloseBrak_serVal (v : PyVal) (r : List Tok) :
    isCloseBrak (serVal v ++ r) = false := by
  cases v <;> simp [serVal, isCloseBrak]

/-- A serialized value never starts with a mapping-closing token. -/
theorem isCloseBrace_serVal (v : PyVal) (r : List Tok) :
    isCloseBrace (serVal v ++ r) = false := by
  cases v <;> simp [serVal, isCloseBrace]

mutual

/-- Parsing a serialized value with enough fuel returns the value and the
unconsumed remainder. -/
theorem parse_serVal : ∀ (v : PyVal) (fuel : Nat) (rest : List Tok),
    (serVal v).length ≤ fuel →
    parseVal fuel (serVal v ++ rest) = some (v, rest)
  | .int n, fuel, rest, h => by
    cases fuel with
    | zero => simp [serVal] at h
    | succ f => simp [serVal, parseVal]
  | .str s, fuel, rest, h => by
    cases fuel with
    | zero => simp [serVal] at h
    | succ f => simp [serVal, parseVal]
  | .bool b, fuel, rest, h => by
    cases fuel with
    | zero => simp [serVal] at h
    | succ f => simp [serVal, parseVal]
  | .list xs, fuel, rest, h => by
    cases fuel with
    | zero => simp [serVal] at h
    | succ f =>
      have hlen : (serList xs).length < f := by
        simp [serVal] at h
        omega
      have hrec := parse_serList xs f (.rbrak :: rest)
        (by simp [isCloseBrak]) hlen
      simp only [serVal, List.cons_append, List.append_assoc,
        List.singleton_append]
      simp [parseVal, hrec]
  | .dict xs, fuel, rest, h => by
    cases fuel with
    | zero => simp [serVal] at h
    | succ f =>
      have hlen : (serDict xs).length < f := by
        simp [serVal] at h
        omega
      have hrec := parse_serDict xs f (.rbrace :: rest)
        (by simp [isCloseBrace]) hlen
      simp only [serVal, List.cons_append, List.append_assoc,
        List.singleton_append]
      simp [parseVal, hrec]

/-- Parsing a serialized element sequence stops exactly at the closing
token that follows it. -/
theorem parse_serList : ∀ (xs : PyList) (fuel : Nat) (rest : List Tok),
    isCloseBrak rest = true → (serList xs).length < fuel →
    parseListToks fuel (serList xs ++ rest) = some (xs, rest)
  | .nil, fuel, rest, hr, h => by
    cases fuel with
    | zero => simp [serList] at h
    | succ f => simp [serList, parseListToks, hr]
  | .cons v vs, fuel, rest, hr, h => by
    cases fuel with
    | zero => omega
    | succ f =>
      have hpos := serVal_length_pos v
      have h1 : (serVal v).length ≤ f := by
        simp [serList] at h
        omega
      have h2 : (serList vs).length < f := by
        simp [serList] at h
        omega
      have hv := parse_serVal v f (serList vs ++ rest) h1
      have hvs := parse_serList vs f rest hr h2
      have hclose := isCloseBrak_serVal v (serList vs ++ rest)
      simp only [serList, List.append_assoc]
      simp [parseListToks, hclose, hv, hvs]

/-- Parsing a serialized mapping body stops exactly at the closing token
that follows it. -/
theorem parse_serDict : ∀ (xs : PyDict) (fuel : Nat) (rest : List Tok),
    isCloseBrace rest = true → (serDict xs).length < fuel →
    parseDictToks fuel (serDict xs ++ rest) = some (xs, rest)
  | .nil, fuel, rest, hr, h => by
    cases fuel with
    | zero => simp [serDict] at h
    | succ f => simp [serDict, parseDictToks, hr]
  | .cons k v vs, fuel, rest, hr, h => by
    cases fuel with
    | zero => omega
    | succ f =>
      have h1 : (serVal v).length ≤ f := by
        simp [serDict] at h
        omega
      have h2 : (serDict vs).length < f := by
        simp [serDict] at h
        omega
      have hv := parse_serVal v f (serDict vs ++ rest) h1
      have hvs := parse_serDict vs f rest hr h2
      simp only [serDict, List.cons_append, List.append_assoc]
      simp [parseDictToks, isCloseBrace, hv, hvs]

end

/-- The written script of a top-level mapping is the serialized form of its
key-coerced dictionary value. -/
theorem writeScript_eq (params : List (PKey × PyVal)) :
    writeScript params = serVal (.dict (coerceParams params)) := by
  simp [writeScript, serVal]

/-- C6: writing a valid top-level mapping to a script and reading the
script back yields the mapping with every non-string scalar key coerced to
its string form and every value — scalars, sequences, nested mappings —
preserved exactly. -/
theorem config_write_read_roundtrip (params : List (PKey × PyVal))
    (_hvalid : (coercedKeys params).Nodup) :
    readScript (writeScript params) = some (coerceParams params) := by
  have h := parse_serVal (.dict (coerceParams params))
    ((serVal (.dict (coerceParams params))).length + 1) [] (by omega)
  rw [List.append_nil] at h
  rw [writeScript_eq]
  unfold readScript
  rw [h]

/-- C6 witness: the mapping of `test_param_load` — a string key, the
integer key `0`, and a nested mapping — round-trips with `0` coerced to
`"0"`. -/
theorem config_write_read_roundtrip_witness :
    ((coercedKeys sampleParams).Nodup) ∧
      readScript (writeScript sampleParams) =
        some (coerceParams sampleParams) :=
  ⟨by decide, config_write_read_roundtrip sampleParams (by decide)⟩

end Simuran
